import Mathlib

/-!
Shallow embedding of the memAlpha memory storage engine
(`src/memory_store.py`, `src/models.py`, `src/server.py`).

Modelling conventions:
* Python floats are modelled as rationals (`ℚ`); the embedding vectors and
  the L2 distances reported by the vector index are rationals, so the
  similarity arithmetic `1 / (1 + distance)` is exact.
* `datetime` instants are modelled as `Nat`; the Python round trip
  `datetime.fromisoformat(d.isoformat()) = d` (standard library) is modelled
  by storing the instant itself in the record envelope.
* The external `json` library used by `_serialize_metadata` /
  `_deserialize_metadata` is modelled by a codec structure carrying the
  library's documented guarantees (`loads (dumps m) = m`, `dumps` output
  nonempty) for JSON-representable metadata mappings.
* ChromaDB collections are modelled as association lists in insertion
  order, matching the observable semantics of `collection.add` / `get` /
  `update` / `delete` / `query` used by the store: `add` appends, `get`
  looks up by id, `update` rewrites the fields of an existing id,
  `delete` removes matching ids and is a silent no-op for absent ids,
  `query` returns the `n_results` nearest records by L2 distance.
* A raised Python exception is modelled as `Except.error` (for the
  embedding backend) or as an explicit failure flag (for the storage
  engine call inside `delete_memory`, which the code wraps in
  `try/except`).
* Each engine operation additionally returns the list of texts passed to
  `embedding_provider.embed` during the call, so that claims about how
  often the embedding provider is invoked are statable.
-/

namespace MemAlpha

/-- Association-list lookup by string key (models dict / collection lookup). -/
def findVal {α : Type} : List (String × α) → String → Option α
  | [], _ => none
  | (k, v) :: rest, key => if k = key then some v else findVal rest key

/-- Association-list update-or-append by string key. -/
def setVal {α : Type} : List (String × α) → String → α → List (String × α)
  | [], key, v => [(key, v)]
  | (k, w) :: rest, key, v =>
    if k = key then (key, v) :: rest else (k, w) :: setVal rest key v

/-- Characters Python's `str.strip()` removes (ASCII whitespace; the claims
only involve ASCII content, so the extra Unicode whitespace classes of
Python are irrelevant here). -/
def pyIsSpace (c : Char) : Bool :=
  c == ' ' || c == '\t' || c == '\n' || c == '\r' || c == '\x0b' || c == '\x0c'

/-- Python `not v or not v.strip()`: the string is empty or whitespace-only. -/
def pyStrBlank (s : String) : Bool :=
  s.data.all pyIsSpace

/-- Characters kept by the sanitizer regex `[^a-zA-Z0-9_-]` in
`MemoryStore._get_collection_name`. -/
def isSafeChar (c : Char) : Bool :=
  ('a' ≤ c && c ≤ 'z') || ('A' ≤ c && c ≤ 'Z') || ('0' ≤ c && c ≤ '9')
    || c == '_' || c == '-'

/-- `re.sub(r'[^a-zA-Z0-9_-]', '_', s)`: replace every unsafe character
with an underscore (written over the character list so it evaluates). -/
def sanitizeId (s : String) : String :=
  ⟨s.data.map (fun c => if isSafeChar c then c else '_')⟩

/-- Embedding vectors (`List[float]`), modelled over `ℚ`. -/
abbrev Vec := List ℚ

/-- Model of the `EmbeddingProvider` interface (`src/embeddings.py`).
`embed` returning `none` models the backend raising (unreachable /
misconfigured). -/
structure EmbeddingProvider where
  embed : String → Option Vec
  provider_name : String
  model_name : String
  dimension : Nat

/-- Model of the external `json` library on JSON-representable metadata
mappings of type `Meta`: `dumps` serializes, `loads` parses, `emptyVal`
is the empty mapping denoted by the literal `'\x7b\x7d'`. The two laws are
the standard-library guarantees the store relies on: parsing a dumped
value gives the value back, and `json.dumps` never returns the empty
string. -/
structure JsonCodec (Meta : Type) where
  dumps : Meta → String
  loads : String → Meta
  emptyVal : Meta
  loads_dumps : ∀ m, loads (dumps m) = m
  dumps_ne_empty : ∀ m, dumps m ≠ ""

/-- The per-record metadata envelope written to ChromaDB by the store
(`chroma_metadata` dicts in `store_memory` / `update_memory`). -/
structure ChromaMeta where
  project_id : String
  agent_id : String
  custom_metadata : String
  embedding_provider : String
  embedding_model : String
  created_at : Nat
  updated_at : Nat
deriving DecidableEq, Repr

/-- One record of a ChromaDB collection: vector, document, metadata. -/
structure ChromaRecord where
  embedding : Vec
  document : String
  meta : ChromaMeta
deriving DecidableEq, Repr

/-- Collection-level metadata attached at creation
(`_get_or_create_collection`). -/
structure CollectionMeta where
  project_id : String
  agent_id : String
  embedding_provider : String
  embedding_model : String
  embedding_dimension : Nat
deriving DecidableEq, Repr

/-- A ChromaDB collection: creation metadata plus records in insertion
order. -/
structure Collection where
  meta : CollectionMeta
  records : List (String × ChromaRecord)
deriving DecidableEq, Repr

/-- `collection.get(ids=[id])`. -/
def Collection.getById (c : Collection) (id : String) : Option ChromaRecord :=
  findVal c.records id

/-- `collection.add(ids=[id], embeddings=[emb], documents=[doc],
metadatas=[m])`: appends a record. -/
def Collection.add (c : Collection) (id : String) (emb : Vec) (doc : String)
    (m : ChromaMeta) : Collection :=
  { c with records := c.records ++ [(id, ⟨emb, doc, m⟩)] }

/-- Rewrite the value stored under `key` with `g`, leaving every other
entry unchanged (the per-id rewrite a ChromaDB `update` performs). -/
def updateVal {α : Type} : List (String × α) → String → (α → α) →
    List (String × α)
  | [], _, _ => []
  | (k, w) :: rest, key, g =>
    if k = key then (k, g w) :: updateVal rest key g
    else (k, w) :: updateVal rest key g

/-- `collection.update(...)`: rewrite the stored fields of the record with
the given id (keeping the old vector when no embedding is supplied);
silent no-op for an absent id. -/
def Collection.updateRec (c : Collection) (id : String) (emb? : Option Vec)
    (doc : String) (m : ChromaMeta) : Collection :=
  ⟨c.meta, updateVal c.records id (fun r => ⟨emb?.getD r.embedding, doc, m⟩)⟩

/-- `collection.delete(ids=[id])`: removes matching records; succeeds (as a
no-op) when the id is absent. -/
def Collection.deleteById (c : Collection) (id : String) : Collection :=
  { c with records := c.records.filter (fun p => decide (p.1 ≠ id)) }

/-- Squared L2 distance between vectors, the distance metric ChromaDB
reports for its default `l2` space. -/
def sqDist (xs ys : Vec) : ℚ :=
  ((xs.zip ys).map (fun p => (p.1 - p.2) ^ 2)).sum

/-- The k-nearest-neighbour computation of a ChromaDB `query` call over a
record list: optionally pre-filter on the metadata, pair each record with
its distance to the query vector, return the `n` nearest, nearest first. -/
def knn (records : List (String × ChromaRecord)) (qemb : Vec) (n : Nat)
    (flt : Option (ChromaMeta → Bool)) : List (String × ChromaRecord × ℚ) :=
  let keep : String × ChromaRecord → Bool := fun p =>
    match flt with
    | none => true
    | some f => f p.2.meta
  let cands := (records.filter keep).map
    (fun p => (p.1, p.2, sqDist p.2.embedding qemb))
  (List.insertionSort (fun x y => x.2.2 ≤ y.2.2) cands).take n

/-- `collection.query(query_embeddings=[qemb], n_results=n, where=flt)`:
the `n` records nearest to `qemb` (optionally pre-filtered on their
metadata), each paired with its distance, nearest first. -/
def Collection.queryNN (c : Collection) (qemb : Vec) (n : Nat)
    (flt : Option (ChromaMeta → Bool)) : List (String × ChromaRecord × ℚ) :=
  knn c.records qemb n flt

/-- The persistent ChromaDB client state: all collections, keyed by name. -/
structure StoreState where
  collections : List (String × Collection)
deriving DecidableEq, Repr

/-- Look up a collection by name. -/
def StoreState.findCol (st : StoreState) (name : String) : Option Collection :=
  findVal st.collections name

/-- Write a collection back under its name (create or replace). -/
def StoreState.setCol (st : StoreState) (name : String) (c : Collection) :
    StoreState :=
  ⟨setVal st.collections name c⟩

/-- Apply a record-level mutation to the named collection (no-op when the
collection is absent; the engine always resolves the collection first, so
the no-op branch is unreachable in the operations below). -/
def StoreState.modifyCol (st : StoreState) (name : String)
    (f : Collection → Collection) : StoreState :=
  match st.findCol name with
  | none => st
  | some c => st.setCol name (f c)

/-- The records of the named collection, `[]` when the collection does not
exist. -/
def recordsOf (st : StoreState) (name : String) :
    List (String × ChromaRecord) :=
  match st.findCol name with
  | none => []
  | some c => c.records

/-- The full `Memory` response model (`src/models.py`), over metadata
mappings of type `Meta`. -/
structure Memory (Meta : Type) where
  memory_id : String
  project_id : String
  agent_id : String
  content : String
  metadata : Meta
  embedding_provider : String
  embedding_model : String
  created_at : Nat
  updated_at : Nat
deriving DecidableEq, Repr

/-- The `MemoryMetadata` projection (list responses, no content). -/
structure MemoryMetadata (Meta : Type) where
  memory_id : String
  project_id : String
  agent_id : String
  metadata : Meta
  embedding_provider : String
  embedding_model : String
  created_at : Nat
  updated_at : Nat
deriving DecidableEq, Repr

/-- A `SearchResult`: memory plus similarity score. -/
structure SearchResult (Meta : Type) where
  memory : Memory Meta
  similarity_score : ℚ
deriving DecidableEq, Repr

/-- A validated `MemoryCreate` request (post-pydantic). -/
structure MemoryCreate (Meta : Type) where
  project_id : String
  agent_id : String
  content : String
  metadata : Meta
deriving DecidableEq, Repr

/-- A validated `MemoryUpdate` request (post-pydantic). -/
structure MemoryUpdate (Meta : Type) where
  content : Option String
  metadata : Option Meta
deriving DecidableEq, Repr

/-- Raw `store_memory` tool arguments before validation; `none` models an
absent key in the argument bag. -/
structure MemoryCreateRaw (Meta : Type) where
  project_id : Option String
  agent_id : Option String
  content : Option String
  metadata : Option Meta
deriving DecidableEq, Repr

/-- Raw `update_memory` tool arguments before validation. -/
structure MemoryUpdateRaw (Meta : Type) where
  content : Option String
  metadata : Option Meta
deriving DecidableEq, Repr

/-- Pydantic validation of `MemoryCreate`: required fields present,
`min_length=1` on the three string fields, and the `content_not_empty`
validator rejecting empty / whitespace-only content; an omitted metadata
mapping defaults to the empty mapping. Returns a descriptive error
message on failure. -/
def validateMemoryCreate {Meta : Type} (emptyVal : Meta)
    (raw : MemoryCreateRaw Meta) : Except String (MemoryCreate Meta) :=
  match raw.project_id with
  | none => .error "Field required: project_id"
  | some p =>
    if p.length < 1 then .error "project_id: too short" else
    match raw.agent_id with
    | none => .error "Field required: agent_id"
    | some a =>
      if a.length < 1 then .error "agent_id: too short" else
      match raw.content with
      | none => .error "Field required: content"
      | some cnt =>
        if cnt.length < 1 then .error "content: too short" else
        if pyStrBlank cnt then .error "Content cannot be empty" else
        .ok ⟨p, a, cnt, raw.metadata.getD emptyVal⟩

/-- Pydantic validation of `MemoryUpdate`: both fields optional;
`min_length=1` and the `content_not_empty` validator apply only when
content is supplied. -/
def validateMemoryUpdate {Meta : Type} (raw : MemoryUpdateRaw Meta) :
    Except String (MemoryUpdate Meta) :=
  match raw.content with
  | none => .ok ⟨none, raw.metadata⟩
  | some cnt =>
    if cnt.length < 1 then .error "content: too short" else
    if pyStrBlank cnt then .error "Content cannot be empty" else
    .ok ⟨some cnt, raw.metadata⟩

namespace MemoryStore

/-- `MemoryStore._get_collection_name`: sanitize both scope ids and join
them with the provider name. -/
def get_collection_name (ep : EmbeddingProvider) (project_id agent_id : String) :
    String :=
  "p_" ++ sanitizeId project_id ++ "_a_" ++ sanitizeId agent_id
    ++ "_emb_" ++ ep.provider_name

/-- `MemoryStore._get_or_create_collection`: resolve the collection name;
create the collection with descriptive metadata when absent, return the
existing one unchanged otherwise. Returns the name and the (possibly
extended) client state. -/
def get_or_create_collection (ep : EmbeddingProvider) (st : StoreState)
    (project_id agent_id : String) : String × StoreState :=
  match st.findCol (get_collection_name ep project_id agent_id) with
  | some _ => (get_collection_name ep project_id agent_id, st)
  | none =>
    (get_collection_name ep project_id agent_id,
     st.setCol (get_collection_name ep project_id agent_id)
      ⟨⟨project_id, agent_id, ep.provider_name, ep.model_name, ep.dimension⟩, []⟩)

/-- `MemoryStore._serialize_metadata`: `json.dumps`. -/
def serialize_metadata {Meta : Type} (J : JsonCodec Meta) (m : Meta) : String :=
  J.dumps m

/-- `MemoryStore._deserialize_metadata`: empty string means empty mapping,
otherwise `json.loads`. -/
def deserialize_metadata {Meta : Type} (J : JsonCodec Meta) (s : String) : Meta :=
  if s = "" then J.emptyVal else J.loads s

/-- `MemoryStore.store_memory`. Inputs supplied by the environment in the
source are explicit parameters here: `memory_id` (the fresh `uuid.uuid4()`)
and `now` (`datetime.now()`). Returns the created `Memory` (or the
propagated embedding failure), the new client state, and the texts passed
to `embed` during the call. -/
def store_memory {Meta : Type} (ep : EmbeddingProvider) (J : JsonCodec Meta)
    (st : StoreState) (mc : MemoryCreate Meta) (memory_id : String) (now : Nat) :
    Except Unit (Memory Meta) × StoreState × List String :=
  let name := get_collection_name ep mc.project_id mc.agent_id
  let st1 := (get_or_create_collection ep st mc.project_id mc.agent_id).2
  match ep.embed mc.content with
  | none => (.error (), st1, [mc.content])
  | some embedding =>
    let chroma_metadata : ChromaMeta :=
      ⟨mc.project_id, mc.agent_id, serialize_metadata J mc.metadata,
        ep.provider_name, ep.model_name, now, now⟩
    let st2 := st1.modifyCol name
      (fun c => c.add memory_id embedding mc.content chroma_metadata)
    (.ok ⟨memory_id, mc.project_id, mc.agent_id, mc.content, mc.metadata,
           ep.provider_name, ep.model_name, now, now⟩,
     st2, [mc.content])

/-- Rebuild a `Memory` from a stored record, as `get_memory` and the loop
body of `search_memories` do. -/
def memOfRecord {Meta : Type} (J : JsonCodec Meta) (memory_id : String)
    (r : ChromaRecord) : Memory Meta :=
  ⟨memory_id, r.meta.project_id, r.meta.agent_id, r.document,
    deserialize_metadata J r.meta.custom_metadata,
    r.meta.embedding_provider, r.meta.embedding_model,
    r.meta.created_at, r.meta.updated_at⟩

/-- Rebuild a `MemoryMetadata` from a stored record, as the loop body of
`list_memories` does. -/
def metaOfRecord {Meta : Type} (J : JsonCodec Meta) (memory_id : String)
    (r : ChromaRecord) : MemoryMetadata Meta :=
  ⟨memory_id, r.meta.project_id, r.meta.agent_id,
    deserialize_metadata J r.meta.custom_metadata,
    r.meta.embedding_provider, r.meta.embedding_model,
    r.meta.created_at, r.meta.updated_at⟩

/-- `MemoryStore.get_memory`: resolve the collection (creating it when
absent), look the id up, `none` when not found, otherwise rebuild the
`Memory` from the stored envelope. Never calls `embed`. -/
def get_memory {Meta : Type} (ep : EmbeddingProvider) (J : JsonCodec Meta)
    (st : StoreState) (project_id agent_id memory_id : String) :
    Option (Memory Meta) × StoreState × List String :=
  let name := get_collection_name ep project_id agent_id
  let st1 := (get_or_create_collection ep st project_id agent_id).2
  match findVal (recordsOf st1 name) memory_id with
  | none => (none, st1, [])
  | some r => (some (memOfRecord J memory_id r), st1, [])

/-- `MemoryStore.search_memories`: embed the query (failure propagates),
run the k-nearest-neighbour query with `k = limit`, convert each distance
to `min (1 / (1 + distance)) 1`. -/
def search_memories {Meta : Type} (ep : EmbeddingProvider) (J : JsonCodec Meta)
    (st : StoreState) (project_id agent_id query : String) (limit : Nat)
    (filters : Option (ChromaMeta → Bool)) :
    Except Unit (List (SearchResult Meta)) × StoreState × List String :=
  let name := get_collection_name ep project_id agent_id
  let st1 := (get_or_create_collection ep st project_id agent_id).2
  match ep.embed query with
  | none => (.error (), st1, [query])
  | some query_embedding =>
    let hits := knn (recordsOf st1 name) query_embedding limit filters
    (.ok (hits.map fun p =>
        ⟨memOfRecord J p.1 p.2.1, min (1 / (1 + p.2.2)) 1⟩),
     st1, [query])

/-- `MemoryStore.update_memory`: fetch the existing memory (absent →
`none`); fill unsupplied fields from the existing record; rebuild the
metadata envelope preserving `created_at` and the provider identity and
stamping `updated_at := now`; re-embed and write when content was
supplied, write without re-embedding otherwise. -/
def update_memory {Meta : Type} (ep : EmbeddingProvider) (J : JsonCodec Meta)
    (st : StoreState) (project_id agent_id memory_id : String)
    (update : MemoryUpdate Meta) (now : Nat) :
    Except Unit (Option (Memory Meta)) × StoreState × List String :=
  let st1 := (get_memory ep J st project_id agent_id memory_id).2.1
  let tr1 := (get_memory ep J st project_id agent_id memory_id).2.2
  match (get_memory ep J st project_id agent_id memory_id).1 with
  | none => (.ok none, st1, tr1)
  | some existing =>
    let name := get_collection_name ep project_id agent_id
    let st2 := (get_or_create_collection ep st1 project_id agent_id).2
    let new_content := update.content.getD existing.content
    let new_metadata := update.metadata.getD existing.metadata
    let chroma_metadata : ChromaMeta :=
      ⟨project_id, agent_id, serialize_metadata J new_metadata,
        existing.embedding_provider, existing.embedding_model,
        existing.created_at, now⟩
    let result : Memory Meta :=
      ⟨memory_id, project_id, agent_id, new_content, new_metadata,
        existing.embedding_provider, existing.embedding_model,
        existing.created_at, now⟩
    match update.content with
    | some _ =>
      match ep.embed new_content with
      | none => (.error (), st2, tr1 ++ [new_content])
      | some new_embedding =>
        (.ok (some result),
         st2.modifyCol name
           (fun c => c.updateRec memory_id (some new_embedding) new_content
             chroma_metadata),
         tr1 ++ [new_content])
    | none =>
      (.ok (some result),
       st2.modifyCol name
         (fun c => c.updateRec memory_id none new_content chroma_metadata),
       tr1)

/-- `MemoryStore.delete_memory`: resolve the collection, attempt the
delete inside `try/except`. `engineFail` models the storage engine
raising during `collection.delete`; the exception is caught and reported
as `false`. A delete of an absent id is a silent no-op of the engine and
reports `true`. -/
def delete_memory (ep : EmbeddingProvider) (st : StoreState)
    (project_id agent_id memory_id : String) (engineFail : Bool) :
    Bool × StoreState :=
  let name := get_collection_name ep project_id agent_id
  let st1 := (get_or_create_collection ep st project_id agent_id).2
  if engineFail then (false, st1)
  else (true, st1.modifyCol name (fun c => c.deleteById memory_id))

/-- `MemoryStore.list_memories`: full scan of the collection, then the
Python slice `[offset : offset + limit]`; the `filters` argument is
accepted and ignored by the source. -/
def list_memories {Meta : Type} (ep : EmbeddingProvider) (J : JsonCodec Meta)
    (st : StoreState) (project_id agent_id : String) (limit offset : Nat)
    (filters : Option (ChromaMeta → Bool)) :
    List (MemoryMetadata Meta) × StoreState :=
  let _ := filters
  let name := get_collection_name ep project_id agent_id
  let st1 := (get_or_create_collection ep st project_id agent_id).2
  let page := ((recordsOf st1 name).drop offset).take limit
  (page.map (fun p => metaOfRecord J p.1 p.2), st1)

end MemoryStore

/-- The `store_memory` tool handler of `src/server.py`: construct the
pydantic `MemoryCreate` (validation runs here) and only then call the
engine; a validation failure is caught by the handler's `try/except` and
rendered as a descriptive error, with no storage or embedding call made. -/
def handle_store_memory {Meta : Type} (ep : EmbeddingProvider)
    (J : JsonCodec Meta) (st : StoreState) (raw : MemoryCreateRaw Meta)
    (memory_id : String) (now : Nat) :
    Except String (Except Unit (Memory Meta)) × StoreState × List String :=
  match validateMemoryCreate J.emptyVal raw with
  | .error e => (.error e, st, [])
  | .ok mc =>
    (.ok (MemoryStore.store_memory ep J st mc memory_id now).1,
     (MemoryStore.store_memory ep J st mc memory_id now).2.1,
     (MemoryStore.store_memory ep J st mc memory_id now).2.2)

/-- The `update_memory` tool handler of `src/server.py`: construct the
pydantic `MemoryUpdate` (validation runs here) and only then call the
engine. -/
def handle_update_memory {Meta : Type} (ep : EmbeddingProvider)
    (J : JsonCodec Meta) (st : StoreState)
    (project_id agent_id memory_id : String) (raw : MemoryUpdateRaw Meta)
    (now : Nat) :
    Except String (Except Unit (Option (Memory Meta))) × StoreState × List String :=
  match validateMemoryUpdate raw with
  | .error e => (.error e, st, [])
  | .ok u =>
    (.ok (MemoryStore.update_memory ep J st project_id agent_id memory_id u now).1,
     (MemoryStore.update_memory ep J st project_id agent_id memory_id u now).2.1,
     (MemoryStore.update_memory ep J st project_id agent_id memory_id u now).2.2)

/-- Invariant: no persisted record anywhere in the store has empty or
whitespace-only content. -/
def NoBlank (st : StoreState) : Prop :=
  ∀ name id r, (id, r) ∈ recordsOf st name → pyStrBlank r.document = false

/-! Concrete fixtures used to evaluate the engine at explicit inputs. -/

/-- A concrete always-succeeding embedding backend. -/
def epTest : EmbeddingProvider :=
  ⟨fun _ => some [1], "local", "test-model", 1⟩

/-- A concrete failing embedding backend (models an unreachable backend). -/
def epFail : EmbeddingProvider :=
  ⟨fun _ => none, "local", "test-model", 1⟩

/-- A concrete JSON codec on `Nat`-coded metadata mappings: `dumps n` is a
string of `n + 1` marks (never empty), `loads` recovers `n`. -/
def JNat : JsonCodec Nat where
  dumps n := ⟨List.replicate (n + 1) 'x'⟩
  loads s := s.data.length - 1
  emptyVal := 0
  loads_dumps m := by simp
  dumps_ne_empty m h := by
    have hd := congrArg String.data h
    simp at hd

/-- The empty client state (a fresh data directory). -/
def st0 : StoreState := ⟨[]⟩

/-- Fixture for C1: a memory stored under the raw scope `("a/b", "a1")`;
the raw project id contains `/`, a character outside `[A-Za-z0-9_-]`. -/
def stC1 : StoreState :=
  (MemoryStore.store_memory epTest JNat st0
    (⟨"a/b", "a1", "remember this", 7⟩ : MemoryCreate Nat) "id1" 3).2.1

/-- Fixture for C4: a memory stored under scope `("p1", "a1")`. -/
def stC4 : StoreState :=
  (MemoryStore.store_memory epTest JNat st0
    (⟨"p1", "a1", "keep me", 0⟩ : MemoryCreate Nat) "m1" 0).2.1

/-- Fixture for C4: the state after the first (successful) delete. -/
def stC4' : StoreState :=
  (MemoryStore.delete_memory epTest stC4 "p1" "a1" "m1" false).2

/-- Fixture for C5/C8: one stored memory under scope `("p5", "a5")`. -/
def stC5 : StoreState :=
  (MemoryStore.store_memory epTest JNat st0
    (⟨"p5", "a5", "searchable", 2⟩ : MemoryCreate Nat) "m5" 1).2.1

/-- Fixture for C5: the single result of searching `stC5`. -/
def srC5 : SearchResult Nat :=
  ⟨⟨"m5", "p5", "a5", "searchable", 2, "local", "test-model", 1, 1⟩, 1⟩

/-- Fixture for C2: a creation request whose embedding will fail. -/
def mcC2 : MemoryCreate Nat := ⟨"p", "a", "hi", 0⟩

/-- Fixture for C6: a creation request with content and metadata. -/
def mcC6 : MemoryCreate Nat := ⟨"p1", "a1", "hello", 5⟩

/-- Fixture for C6: the state after storing `mcC6` under id `w6`. -/
def stC6 : StoreState :=
  (MemoryStore.store_memory epTest JNat st0 mcC6 "w6" 2).2.1

/-- Fixture for C6: the memory the round trip returns. -/
def mC6 : Memory Nat :=
  ⟨"w6", "p1", "a1", "hello", 5, "local", "test-model", 2, 2⟩

/-- Fixture for C7: the memory returned by the metadata-only update. -/
def mC7 : Memory Nat :=
  ⟨"m1", "p1", "a1", "keep me", 9, "local", "test-model", 0, 5⟩

/-- Fixture for C1 witness: a store under `("p1", "a1")` from the empty
state. -/
def stC1w : StoreState :=
  (MemoryStore.store_memory epTest JNat st0
    (⟨"p1", "a1", "hello", 0⟩ : MemoryCreate Nat) "idw" 0).2.1

/-- Fixture for C9: a raw store request with whitespace-only content. -/
def rawC9 : MemoryCreateRaw Nat := ⟨some "p", some "a", some "   ", none⟩

/-! ## Helper lemmas -/

theorem findVal_setVal_self {α : Type} (l : List (String × α)) (k : String)
    (v : α) : findVal (setVal l k v) k = some v := by
  induction l with
  | nil => simp [setVal, findVal]
  | cons hd tl ih =>
    obtain ⟨k', w⟩ := hd
    by_cases hk : k' = k
    · simp [setVal, hk, findVal]
    · simp [setVal, hk, findVal, ih]

theorem findVal_setVal_ne {α : Type} (l : List (String × α)) (k k' : String)
    (v : α) (h : k' ≠ k) : findVal (setVal l k v) k' = findVal l k' := by
  induction l with
  | nil => simp [setVal, findVal, Ne.symm h]
  | cons hd tl ih =>
    obtain ⟨k₀, w⟩ := hd
    by_cases hk : k₀ = k
    · subst hk
      simp [setVal, findVal, Ne.symm h]
    · simp [setVal, hk, findVal, ih]

theorem findVal_append_right {α : Type} (l : List (String × α)) (k : String)
    (v : α) (h : findVal l k = none) :
    findVal (l ++ [(k, v)]) k = some v := by
  induction l with
  | nil => simp [findVal]
  | cons hd tl ih =>
    obtain ⟨k₀, w⟩ := hd
    by_cases hk : k₀ = k
    · simp [findVal, hk] at h
    · simp [findVal, hk] at h ⊢
      exact ih h

theorem findVal_mem {α : Type} {l : List (String × α)} {k : String} {v : α}
    (h : findVal l k = some v) : (k, v) ∈ l := by
  induction l with
  | nil => simp [findVal] at h
  | cons hd tl ih =>
    obtain ⟨k₀, w⟩ := hd
    by_cases hk : k₀ = k
    · subst hk
      simp [findVal] at h
      simp [h]
    · simp [findVal, hk] at h
      exact List.mem_cons_of_mem _ (ih h)

theorem findVal_eq_none_of_forall_ne {α : Type} {l : List (String × α)}
    {k : String} (h : ∀ p ∈ l, p.1 ≠ k) : findVal l k = none := by
  induction l with
  | nil => rfl
  | cons hd tl ih =>
    obtain ⟨k₀, w⟩ := hd
    have hk : k₀ ≠ k := h (k₀, w) (by simp)
    simp [findVal, hk]
    exact ih fun p hp => h p (List.mem_cons_of_mem _ hp)

theorem findVal_updateVal_self {α : Type} (l : List (String × α)) (k : String)
    (g : α → α) :
    findVal (updateVal l k g) k = (findVal l k).map g := by
  induction l with
  | nil => simp [updateVal, findVal]
  | cons hd tl ih =>
    obtain ⟨k₀, w⟩ := hd
    by_cases hk : k₀ = k
    · subst hk
      simp [updateVal, findVal]
    · simp [updateVal, findVal, hk, ih]

theorem mem_updateVal {α : Type} {l : List (String × α)} {k : String}
    {g : α → α} {x : String × α} (hx : x ∈ updateVal l k g) :
    ∃ w, (x.1, w) ∈ l ∧ (x.2 = w ∨ x.2 = g w) := by
  induction l with
  | nil => simp [updateVal] at hx
  | cons hd tl ih =>
    obtain ⟨k₀, w⟩ := hd
    by_cases hk : k₀ = k
    · subst hk
      simp [updateVal] at hx
      rcases hx with hx | hx
      · subst hx
        exact ⟨w, by simp⟩
      · obtain ⟨w', hw', hm⟩ := ih hx
        exact ⟨w', by simp [hw'], hm⟩
    · simp [updateVal, hk] at hx
      rcases hx with hx | hx
      · subst hx
        exact ⟨w, by simp⟩
      · obtain ⟨w', hw', hm⟩ := ih hx
        exact ⟨w', by simp [hw'], hm⟩

theorem findVal_filter_ne_self {α : Type} (l : List (String × α)) (k : String) :
    findVal (l.filter fun p => decide (p.1 ≠ k)) k = none := by
  induction l with
  | nil => rfl
  | cons hd tl ih =>
    obtain ⟨k₀, w⟩ := hd
    by_cases hk : k₀ = k
    · simpa [List.filter, hk] using ih
    · simpa [List.filter, hk, findVal] using ih

theorem recordsOf_setCol_self (st : StoreState) (name : String)
    (c : Collection) : recordsOf (st.setCol name c) name = c.records := by
  simp [recordsOf, StoreState.findCol, StoreState.setCol, findVal_setVal_self]

theorem recordsOf_setCol_ne (st : StoreState) (name name' : String)
    (c : Collection) (h : name' ≠ name) :
    recordsOf (st.setCol name c) name' = recordsOf st name' := by
  simp [recordsOf, StoreState.findCol, StoreState.setCol,
    findVal_setVal_ne _ _ _ _ h]

theorem recordsOf_eq_nil_of_findCol_none {st : StoreState} {name : String}
    (h : st.findCol name = none) : recordsOf st name = [] := by
  simp [recordsOf, h]

theorem goc_fst (ep : EmbeddingProvider) (st : StoreState) (p a : String) :
    (MemoryStore.get_or_create_collection ep st p a).1 =
      MemoryStore.get_collection_name ep p a := by
  cases h : st.findCol (MemoryStore.get_collection_name ep p a) <;>
    simp [MemoryStore.get_or_create_collection, h]

theorem recordsOf_goc (ep : EmbeddingProvider) (st : StoreState)
    (p a name' : String) :
    recordsOf (MemoryStore.get_or_create_collection ep st p a).2 name' =
      recordsOf st name' := by
  cases h : st.findCol (MemoryStore.get_collection_name ep p a) with
  | some c => simp [MemoryStore.get_or_create_collection, h]
  | none =>
    by_cases hn : name' = MemoryStore.get_collection_name ep p a
    · subst hn
      rw [recordsOf_eq_nil_of_findCol_none h]
      simp [MemoryStore.get_or_create_collection, h, recordsOf_setCol_self]
    · simp [MemoryStore.get_or_create_collection, h,
        recordsOf_setCol_ne _ _ _ _ hn]

theorem findCol_goc_self (ep : EmbeddingProvider) (st : StoreState)
    (p a : String) :
    ∃ c, ((MemoryStore.get_or_create_collection ep st p a).2).findCol
        (MemoryStore.get_collection_name ep p a) = some c
      ∧ c.records = recordsOf st (MemoryStore.get_collection_name ep p a) := by
  cases h : st.findCol (MemoryStore.get_collection_name ep p a) with
  | some c =>
    refine ⟨c, ?_, by simp [recordsOf, h]⟩
    simp [MemoryStore.get_or_create_collection, h]
  | none =>
    have h' : findVal st.collections (MemoryStore.get_collection_name ep p a) =
      none := h
    refine ⟨⟨⟨p, a, ep.provider_name, ep.model_name, ep.dimension⟩, []⟩, ?_, ?_⟩
    · simp [MemoryStore.get_or_create_collection, h', StoreState.setCol,
        StoreState.findCol, findVal_setVal_self]
    · rw [recordsOf_eq_nil_of_findCol_none h]

theorem findCol_goc_meta (ep : EmbeddingProvider) (st : StoreState)
    (p a : String)
    (h : st.findCol (MemoryStore.get_collection_name ep p a) = none) :
    ((MemoryStore.get_or_create_collection ep st p a).2).findCol
        (MemoryStore.get_collection_name ep p a) =
      some ⟨⟨p, a, ep.provider_name, ep.model_name, ep.dimension⟩, []⟩ := by
  have h' : findVal st.collections (MemoryStore.get_collection_name ep p a) =
    none := h
  simp [MemoryStore.get_or_create_collection, h', StoreState.setCol,
    StoreState.findCol, findVal_setVal_self]

theorem findCol_goc_ne_none (ep : EmbeddingProvider) (st : StoreState)
    (p a : String) :
    ((MemoryStore.get_or_create_collection ep st p a).2).findCol
      (MemoryStore.get_collection_name ep p a) ≠ none := by
  obtain ⟨c, hc, _⟩ := findCol_goc_self ep st p a
  simp [hc]

theorem recordsOf_modifyCol (st : StoreState) (name name' : String)
    (f : Collection → Collection)
    (g : List (String × ChromaRecord) → List (String × ChromaRecord))
    (hf : ∀ c, (f c).records = g c.records)
    (hex : st.findCol name ≠ none) :
    recordsOf (st.modifyCol name f) name' =
      if name' = name then g (recordsOf st name) else recordsOf st name' := by
  unfold StoreState.modifyCol
  cases h : st.findCol name with
  | none => exact absurd h hex
  | some c =>
    have hrec : recordsOf st name = c.records := by simp [recordsOf, h]
    by_cases hn : name' = name
    · subst hn
      simp [recordsOf_setCol_self, hf, hrec]
    · simp [hn, recordsOf_setCol_ne _ _ _ _ hn]

/-- The record envelope `store_memory` writes. -/
def storedRecord {Meta : Type} (ep : EmbeddingProvider) (J : JsonCodec Meta)
    (mc : MemoryCreate Meta) (emb : Vec) (now : Nat) : ChromaRecord :=
  ⟨emb, mc.content,
    ⟨mc.project_id, mc.agent_id, MemoryStore.serialize_metadata J mc.metadata,
      ep.provider_name, ep.model_name, now, now⟩⟩

theorem store_memory_ok_fst {Meta : Type} (ep : EmbeddingProvider)
    (J : JsonCodec Meta) (st : StoreState) (mc : MemoryCreate Meta)
    (mid : String) (now : Nat) (emb : Vec)
    (h : ep.embed mc.content = some emb) :
    (MemoryStore.store_memory ep J st mc mid now).1 =
      .ok ⟨mid, mc.project_id, mc.agent_id, mc.content, mc.metadata,
            ep.provider_name, ep.model_name, now, now⟩ := by
  simp [MemoryStore.store_memory, h]

theorem store_memory_trace {Meta : Type} (ep : EmbeddingProvider)
    (J : JsonCodec Meta) (st : StoreState) (mc : MemoryCreate Meta)
    (mid : String) (now : Nat) :
    (MemoryStore.store_memory ep J st mc mid now).2.2 = [mc.content] := by
  cases h : ep.embed mc.content <;> simp [MemoryStore.store_memory, h]

theorem store_memory_records {Meta : Type} (ep : EmbeddingProvider)
    (J : JsonCodec Meta) (st : StoreState) (mc : MemoryCreate Meta)
    (mid : String) (now : Nat) (emb : Vec)
    (h : ep.embed mc.content = some emb) (name' : String) :
    recordsOf (MemoryStore.store_memory ep J st mc mid now).2.1 name' =
      if name' = MemoryStore.get_collection_name ep mc.project_id mc.agent_id
      then recordsOf st name' ++ [(mid, storedRecord ep J mc emb now)]
      else recordsOf st name' := by
  have hmod := recordsOf_modifyCol
    ((MemoryStore.get_or_create_collection ep st mc.project_id mc.agent_id).2)
    (MemoryStore.get_collection_name ep mc.project_id mc.agent_id) name'
    (fun c => c.add mid emb mc.content
      ⟨mc.project_id, mc.agent_id, MemoryStore.serialize_metadata J mc.metadata,
        ep.provider_name, ep.model_name, now, now⟩)
    (fun rs => rs ++ [(mid, storedRecord ep J mc emb now)])
    (fun c => rfl)
    (findCol_goc_ne_none ep st mc.project_id mc.agent_id)
  simp only [MemoryStore.store_memory, h]
  rw [hmod]
  simp only [recordsOf_goc]
  by_cases hn :
      name' = MemoryStore.get_collection_name ep mc.project_id mc.agent_id <;>
    simp [hn]

theorem store_memory_fail {Meta : Type} (ep : EmbeddingProvider)
    (J : JsonCodec Meta) (st : StoreState) (mc : MemoryCreate Meta)
    (mid : String) (now : Nat) (h : ep.embed mc.content = none) :
    (MemoryStore.store_memory ep J st mc mid now).1 = .error ()
      ∧ ∀ name', recordsOf (MemoryStore.store_memory ep J st mc mid now).2.1
          name' = recordsOf st name' := by
  constructor
  · simp [MemoryStore.store_memory, h]
  · intro name'
    simp [MemoryStore.store_memory, h, recordsOf_goc]

theorem get_memory_eq {Meta : Type} (ep : EmbeddingProvider) (J : JsonCodec Meta)
    (st : StoreState) (p a mid : String) :
    MemoryStore.get_memory ep J st p a mid =
      ((findVal (recordsOf st (MemoryStore.get_collection_name ep p a)) mid).map
         (MemoryStore.memOfRecord J mid),
       (MemoryStore.get_or_create_collection ep st p a).2, []) := by
  simp only [MemoryStore.get_memory, recordsOf_goc]
  cases findVal (recordsOf st (MemoryStore.get_collection_name ep p a)) mid <;>
    simp

theorem search_memories_ok {Meta : Type} (ep : EmbeddingProvider)
    (J : JsonCodec Meta) (st : StoreState) (p a q : String) (limit : Nat)
    (flt : Option (ChromaMeta → Bool)) (qemb : Vec)
    (h : ep.embed q = some qemb) :
    MemoryStore.search_memories ep J st p a q limit flt =
      (.ok ((knn (recordsOf st (MemoryStore.get_collection_name ep p a)) qemb
          limit flt).map fun x =>
          ⟨MemoryStore.memOfRecord J x.1 x.2.1, min (1 / (1 + x.2.2)) 1⟩),
       (MemoryStore.get_or_create_collection ep st p a).2, [q]) := by
  simp [MemoryStore.search_memories, h, recordsOf_goc]

theorem length_knn_le (records : List (String × ChromaRecord)) (qemb : Vec)
    (n : Nat) (flt : Option (ChromaMeta → Bool)) :
    (knn records qemb n flt).length ≤ n := by
  simp only [knn]
  exact List.length_take_le ..

theorem knn_nil (qemb : Vec) (n : Nat) (flt : Option (ChromaMeta → Bool)) :
    knn [] qemb n flt = [] := by
  simp [knn, List.insertionSort]

theorem knn_zero (records : List (String × ChromaRecord)) (qemb : Vec)
    (flt : Option (ChromaMeta → Bool)) : knn records qemb 0 flt = [] := by
  simp [knn]

theorem mem_knn {records : List (String × ChromaRecord)} {qemb : Vec} {n : Nat}
    {flt : Option (ChromaMeta → Bool)} {x : String × ChromaRecord × ℚ}
    (hx : x ∈ knn records qemb n flt) :
    ∃ r, (x.1, r) ∈ records ∧ x = (x.1, r, sqDist r.embedding qemb) := by
  simp only [knn] at hx
  have hx1 := List.take_subset _ _ hx
  have hx2 := (List.perm_insertionSort _ _).subset hx1
  obtain ⟨p, hp, hfp⟩ := List.mem_map.1 hx2
  subst hfp
  exact ⟨p.2, List.mem_of_mem_filter hp, rfl⟩

theorem delete_memory_records (ep : EmbeddingProvider) (st : StoreState)
    (p a mid : String) (name' : String) :
    recordsOf (MemoryStore.delete_memory ep st p a mid false).2 name' =
      if name' = MemoryStore.get_collection_name ep p a
      then (recordsOf st name').filter (fun x => decide (x.1 ≠ mid))
      else recordsOf st name' := by
  have hmod := recordsOf_modifyCol
    ((MemoryStore.get_or_create_collection ep st p a).2)
    (MemoryStore.get_collection_name ep p a) name'
    (fun c => c.deleteById mid)
    (fun rs => rs.filter (fun x => decide (x.1 ≠ mid)))
    (fun c => rfl)
    (findCol_goc_ne_none ep st p a)
  simp only [MemoryStore.delete_memory, Bool.false_eq_true, if_false]
  rw [hmod]
  simp only [recordsOf_goc]
  by_cases hn : name' = MemoryStore.get_collection_name ep p a <;> simp [hn]

theorem delete_memory_fst (ep : EmbeddingProvider) (st : StoreState)
    (p a mid : String) (engineFail : Bool) :
    (MemoryStore.delete_memory ep st p a mid engineFail).1 = !engineFail := by
  cases engineFail <;> simp [MemoryStore.delete_memory]

theorem get_memory_snd {Meta : Type} (ep : EmbeddingProvider)
    (J : JsonCodec Meta) (st : StoreState) (p a mid : String) :
    (MemoryStore.get_memory ep J st p a mid).2 =
      ((MemoryStore.get_or_create_collection ep st p a).2, []) := by
  rw [get_memory_eq]

theorem get_memory_some {Meta : Type} {ep : EmbeddingProvider}
    {J : JsonCodec Meta} {st : StoreState} {p a mid : String} {ex : Memory Meta}
    (h : (MemoryStore.get_memory ep J st p a mid).1 = some ex) :
    ∃ r, findVal (recordsOf st (MemoryStore.get_collection_name ep p a)) mid =
        some r
      ∧ ex = MemoryStore.memOfRecord J mid r := by
  rw [get_memory_eq] at h
  cases hfv : findVal (recordsOf st (MemoryStore.get_collection_name ep p a))
      mid with
  | none => rw [hfv] at h; simp at h
  | some r =>
    rw [hfv] at h
    simp at h
    exact ⟨r, rfl, h.symm⟩

theorem get_memory_none {Meta : Type} {ep : EmbeddingProvider}
    {J : JsonCodec Meta} {st : StoreState} {p a mid : String}
    (h : findVal (recordsOf st (MemoryStore.get_collection_name ep p a)) mid =
      none) :
    (MemoryStore.get_memory ep J st p a mid).1 = none := by
  rw [get_memory_eq, h]
  rfl

theorem search_memories_state {Meta : Type} (ep : EmbeddingProvider)
    (J : JsonCodec Meta) (st : StoreState) (p a q : String) (limit : Nat)
    (flt : Option (ChromaMeta → Bool)) :
    (MemoryStore.search_memories ep J st p a q limit flt).2.1 =
      (MemoryStore.get_or_create_collection ep st p a).2 := by
  cases h : ep.embed q <;> simp [MemoryStore.search_memories, h]

theorem list_memories_eq {Meta : Type} (ep : EmbeddingProvider)
    (J : JsonCodec Meta) (st : StoreState) (p a : String) (limit offset : Nat)
    (flt : Option (ChromaMeta → Bool)) :
    MemoryStore.list_memories ep J st p a limit offset flt =
      ((((recordsOf st (MemoryStore.get_collection_name ep p a)).drop
          offset).take limit).map
          (fun x => MemoryStore.metaOfRecord J x.1 x.2),
       (MemoryStore.get_or_create_collection ep st p a).2) := by
  simp [MemoryStore.list_memories, recordsOf_goc]

theorem findCol_modifyCol_self {st : StoreState} {name : String}
    {c : Collection} (f : Collection → Collection)
    (h : st.findCol name = some c) :
    (st.modifyCol name f).findCol name = some (f c) := by
  have h' : findVal st.collections name = some c := h
  simp [StoreState.modifyCol, StoreState.findCol, StoreState.setCol, h',
    findVal_setVal_self]

theorem sqDist_nonneg (xs ys : Vec) : 0 ≤ sqDist xs ys := by
  unfold sqDist
  apply List.sum_nonneg
  intro x hx
  obtain ⟨p, hp, hpx⟩ := List.mem_map.1 hx
  subst hpx
  positivity

theorem simScore_bounds {d : ℚ} (hd : 0 ≤ d) :
    0 ≤ min (1 / (1 + d)) 1 ∧ min (1 / (1 + d)) 1 ≤ 1 := by
  constructor
  · refine le_min ?_ (by norm_num)
    have h1 : (0:ℚ) < 1 + d := by linarith
    positivity
  · exact min_le_right _ _

theorem validateMemoryCreate_ok {Meta : Type} {emptyVal : Meta}
    {raw : MemoryCreateRaw Meta} {mc : MemoryCreate Meta}
    (h : validateMemoryCreate emptyVal raw = .ok mc) :
    (∃ p, raw.project_id = some p) ∧ (∃ a, raw.agent_id = some a)
      ∧ raw.content = some mc.content ∧ pyStrBlank mc.content = false
      ∧ mc.metadata = raw.metadata.getD emptyVal := by
  rcases raw with ⟨po, ao, co, mo⟩
  cases po with
  | none => simp [validateMemoryCreate] at h
  | some p =>
    cases ao with
    | none =>
      simp only [validateMemoryCreate] at h
      split at h <;> simp_all
    | some a =>
      cases co with
      | none =>
        simp only [validateMemoryCreate] at h
        split at h
        · simp_all
        · split at h <;> simp_all
      | some c =>
        simp only [validateMemoryCreate] at h
        split at h
        · simp_all
        · split at h
          · simp_all
          · split at h
            · simp_all
            · split at h
              · simp_all
              · simp only [Except.ok.injEq] at h
                subst h
                simp_all

theorem validateMemoryUpdate_ok {Meta : Type} {raw : MemoryUpdateRaw Meta}
    {u : MemoryUpdate Meta} (h : validateMemoryUpdate raw = .ok u) :
    u.content = raw.content ∧ u.metadata = raw.metadata
      ∧ ∀ c, u.content = some c → pyStrBlank c = false := by
  rcases raw with ⟨co, mo⟩
  cases co with
  | none =>
    simp only [validateMemoryUpdate, Except.ok.injEq] at h
    subst h
    simp
  | some c =>
    simp only [validateMemoryUpdate] at h
    split at h
    · simp_all
    · split at h
      · simp_all
      · simp only [Except.ok.injEq] at h
        subst h
        simp_all

theorem get_memory_state {Meta : Type} (ep : EmbeddingProvider)
    (J : JsonCodec Meta) (st : StoreState) (p a mid : String) :
    (MemoryStore.get_memory ep J st p a mid).2.1 =
      (MemoryStore.get_or_create_collection ep st p a).2 := by
  rw [get_memory_eq]

theorem update_memory_none_eq {Meta : Type} (ep : EmbeddingProvider)
    (J : JsonCodec Meta) (st : StoreState) (p a mid : String)
    (u : MemoryUpdate Meta) (now : Nat)
    (hget : (MemoryStore.get_memory ep J st p a mid).1 = none) :
    MemoryStore.update_memory ep J st p a mid u now =
      (.ok none, (MemoryStore.get_memory ep J st p a mid).2.1,
       (MemoryStore.get_memory ep J st p a mid).2.2) := by
  simp [MemoryStore.update_memory, hget]

theorem update_memory_meta_eq {Meta : Type} (ep : EmbeddingProvider)
    (J : JsonCodec Meta) (st : StoreState) (p a mid : String)
    (u : MemoryUpdate Meta) (now : Nat) (ex : Memory Meta)
    (hget : (MemoryStore.get_memory ep J st p a mid).1 = some ex)
    (hc : u.content = none) :
    MemoryStore.update_memory ep J st p a mid u now =
      (.ok (some ⟨mid, p, a, ex.content, u.metadata.getD ex.metadata,
          ex.embedding_provider, ex.embedding_model, ex.created_at, now⟩),
       ((MemoryStore.get_or_create_collection ep
          (MemoryStore.get_memory ep J st p a mid).2.1
          p a).2).modifyCol
         (MemoryStore.get_collection_name ep p a)
         (fun c => c.updateRec mid none ex.content
           ⟨p, a, MemoryStore.serialize_metadata J (u.metadata.getD ex.metadata),
             ex.embedding_provider, ex.embedding_model, ex.created_at, now⟩),
       (MemoryStore.get_memory ep J st p a mid).2.2) := by
  simp [MemoryStore.update_memory, hget, hc]

theorem update_memory_content_eq {Meta : Type} (ep : EmbeddingProvider)
    (J : JsonCodec Meta) (st : StoreState) (p a mid : String)
    (u : MemoryUpdate Meta) (now : Nat) (ex : Memory Meta) (ct : String)
    (emb : Vec)
    (hget : (MemoryStore.get_memory ep J st p a mid).1 = some ex)
    (hc : u.content = some ct) (hemb : ep.embed ct = some emb) :
    MemoryStore.update_memory ep J st p a mid u now =
      (.ok (some ⟨mid, p, a, ct, u.metadata.getD ex.metadata,
          ex.embedding_provider, ex.embedding_model, ex.created_at, now⟩),
       ((MemoryStore.get_or_create_collection ep
          (MemoryStore.get_memory ep J st p a mid).2.1
          p a).2).modifyCol
         (MemoryStore.get_collection_name ep p a)
         (fun c => c.updateRec mid (some emb) ct
           ⟨p, a, MemoryStore.serialize_metadata J (u.metadata.getD ex.metadata),
             ex.embedding_provider, ex.embedding_model, ex.created_at, now⟩),
       (MemoryStore.get_memory ep J st p a mid).2.2 ++ [ct]) := by
  simp [MemoryStore.update_memory, hget, hc, hemb]

theorem update_memory_content_fail_eq {Meta : Type} (ep : EmbeddingProvider)
    (J : JsonCodec Meta) (st : StoreState) (p a mid : String)
    (u : MemoryUpdate Meta) (now : Nat) (ex : Memory Meta) (ct : String)
    (hget : (MemoryStore.get_memory ep J st p a mid).1 = some ex)
    (hc : u.content = some ct) (hemb : ep.embed ct = none) :
    MemoryStore.update_memory ep J st p a mid u now =
      (.error (),
       (MemoryStore.get_or_create_collection ep
         (MemoryStore.get_memory ep J st p a mid).2.1 p a).2,
       (MemoryStore.get_memory ep J st p a mid).2.2 ++ [ct]) := by
  simp [MemoryStore.update_memory, hget, hc, hemb]

theorem NoBlank_update_step (mid doc : String) {st st' : StoreState}
    (hrecs : ∀ nm, recordsOf st' nm = recordsOf st nm ∨
      ∃ g : ChromaRecord → ChromaRecord,
        (∀ r, (g r).document = doc) ∧
        recordsOf st' nm = updateVal (recordsOf st nm) mid g)
    (hdoc : pyStrBlank doc = false) (hst : NoBlank st) : NoBlank st' := by
  intro nm id r hr
  rcases hrecs nm with h | ⟨g, hg, h⟩
  · rw [h] at hr
    exact hst nm id r hr
  · rw [h] at hr
    obtain ⟨w, hw, hcase⟩ := mem_updateVal hr
    rcases hcase with hr2 | hr2
    · have hr2' : r = w := hr2
      rw [hr2']
      exact hst nm id w hw
    · have hr2' : r = g w := hr2
      rw [hr2', hg w]
      exact hdoc

theorem validateMemoryCreate_isError {Meta : Type} (emptyVal : Meta)
    (raw : MemoryCreateRaw Meta)
    (h : raw.content = none ∨ (∃ c, raw.content = some c ∧ pyStrBlank c = true)
      ∨ raw.project_id = none ∨ raw.agent_id = none) :
    ∃ e, validateMemoryCreate emptyVal raw = .error e := by
  cases hv : validateMemoryCreate emptyVal raw with
  | error e => exact ⟨e, rfl⟩
  | ok mc =>
    obtain ⟨⟨p, hp⟩, ⟨a, ha⟩, hco, hblank, -⟩ := validateMemoryCreate_ok hv
    rcases h with h | ⟨c, hc, hcb⟩ | h | h
    · rw [h] at hco
      exact absurd hco (by simp)
    · rw [hc] at hco
      obtain rfl : c = mc.content := by injection hco
      rw [hblank] at hcb
      exact absurd hcb (by simp)
    · rw [h] at hp
      exact absurd hp (by simp)
    · rw [h] at ha
      exact absurd ha (by simp)

theorem validateMemoryUpdate_isError {Meta : Type} (raw : MemoryUpdateRaw Meta)
    (h : ∃ c, raw.content = some c ∧ pyStrBlank c = true) :
    ∃ e, validateMemoryUpdate raw = .error e := by
  cases hv : validateMemoryUpdate raw with
  | error e => exact ⟨e, rfl⟩
  | ok u =>
    obtain ⟨hc, -, hb⟩ := validateMemoryUpdate_ok hv
    obtain ⟨c, hrc, hcb⟩ := h
    have := hb c (by rw [hc, hrc])
    rw [this] at hcb
    exact absurd hcb (by simp)

/-! ## Claims -/

/-- Claim C2: for every `store_memory` call, if the embedding provider's
`embed` call fails, the whole operation aborts with the propagated failure
and no partial record is persisted: every partition's record set is
unchanged (the record write happens only after a successful embedding). -/
theorem C2_store_aborts_on_embed_failure {Meta : Type} (ep : EmbeddingProvider)
    (J : JsonCodec Meta) (st : StoreState) (mc : MemoryCreate Meta)
    (mid : String) (now : Nat) (h : ep.embed mc.content = none) :
    (MemoryStore.store_memory ep J st mc mid now).1 = .error ()
      ∧ ∀ name', recordsOf (MemoryStore.store_memory ep J st mc mid now).2.1
          name' = recordsOf st name' :=
  store_memory_fail ep J st mc mid now h

/-- Witness for C2 at a concrete failing backend and request. -/
theorem C2_store_aborts_witness :
    epFail.embed mcC2.content = none
      ∧ (MemoryStore.store_memory epFail JNat st0 mcC2 "m" 0).1 = .error ()
      ∧ recordsOf (MemoryStore.store_memory epFail JNat st0 mcC2 "m" 0).2.1
          "p_p_a_a_emb_local" = recordsOf st0 "p_p_a_a_emb_local" :=
  ⟨rfl,
   (C2_store_aborts_on_embed_failure epFail JNat st0 mcC2 "m" 0 rfl).1,
   (C2_store_aborts_on_embed_failure epFail JNat st0 mcC2 "m" 0 rfl).2
     "p_p_a_a_emb_local"⟩

/-- Claim C5: every `similarity_score` returned by `search_memories` equals
`min (1 / (1 + d)) 1` for a non-negative distance `d` reported by the
index, and lies in the closed interval `[0, 1]`. -/
theorem C5_similarity_bound {Meta : Type} (ep : EmbeddingProvider)
    (J : JsonCodec Meta) (st : StoreState) (p a q : String) (limit : Nat)
    (flt : Option (ChromaMeta → Bool)) (res : List (SearchResult Meta))
    (hok : (MemoryStore.search_memories ep J st p a q limit flt).1 = .ok res) :
    ∀ s ∈ res, (∃ d : ℚ, 0 ≤ d ∧ s.similarity_score = min (1 / (1 + d)) 1)
      ∧ 0 ≤ s.similarity_score ∧ s.similarity_score ≤ 1 := by
  cases hemb : ep.embed q with
  | none => simp [MemoryStore.search_memories, hemb] at hok
  | some qemb =>
    rw [search_memories_ok ep J st p a q limit flt qemb hemb] at hok
    simp only [Except.ok.injEq] at hok
    subst hok
    intro s hs
    obtain ⟨x, hx, hfx⟩ := List.mem_map.1 hs
    subst hfx
    obtain ⟨r, hrmem, hxeq⟩ := mem_knn hx
    have hd : 0 ≤ x.2.2 := by
      rw [hxeq]
      exact sqDist_nonneg r.embedding qemb
    exact ⟨⟨x.2.2, hd, rfl⟩, (simScore_bounds hd).1, (simScore_bounds hd).2⟩

/-- Witness for C5 at a concrete search over a one-record scope. -/
theorem C5_similarity_witness :
    (MemoryStore.search_memories epTest JNat stC5 "p5" "a5" "q" 5 none).1 =
      .ok [srC5]
    ∧ ((∃ d : ℚ, 0 ≤ d ∧ srC5.similarity_score = min (1 / (1 + d)) 1)
        ∧ 0 ≤ srC5.similarity_score ∧ srC5.similarity_score ≤ 1) := by
  have hknn : knn (recordsOf stC5 (MemoryStore.get_collection_name epTest "p5"
      "a5")) [1] 5 none =
      [("m5", storedRecord epTest JNat ⟨"p5", "a5", "searchable", 2⟩ [1] 1,
        sqDist [1] [1])] := by rfl
  have hs : sqDist [(1:ℚ)] [1] = 0 := by
    simp [sqDist]
  have hscore : min ((1:ℚ) / (1 + 0)) 1 = 1 := by norm_num
  have hok : (MemoryStore.search_memories epTest JNat stC5 "p5" "a5" "q" 5
      none).1 = .ok [srC5] := by
    rw [search_memories_ok epTest JNat stC5 "p5" "a5" "q" 5 none [1] rfl, hknn,
      List.map_cons, List.map_nil, hs]
    show Except.ok [(⟨MemoryStore.memOfRecord JNat "m5"
        (storedRecord epTest JNat ⟨"p5", "a5", "searchable", 2⟩ [1] 1),
        min ((1:ℚ) / (1 + 0)) 1⟩ : SearchResult Nat)] = .ok [srC5]
    rw [hscore]
    rfl
  exact ⟨hok, C5_similarity_bound epTest JNat stC5 "p5" "a5" "q" 5 none [srC5]
    hok srC5 (by simp)⟩

/-- Claim C8: `search_memories` returns an ordered list of length at most
`limit`; a scope with zero stored memories yields the empty list without
error; `limit = 0` is legal, yields the empty list, and does not error. -/
theorem C8_search_shape {Meta : Type} (ep : EmbeddingProvider)
    (J : JsonCodec Meta) (st : StoreState) (p a q : String) (limit : Nat)
    (flt : Option (ChromaMeta → Bool)) (qemb : Vec)
    (hemb : ep.embed q = some qemb) :
    ∃ res, (MemoryStore.search_memories ep J st p a q limit
        flt).1 = .ok res
      ∧ res.length ≤ limit
      ∧ (recordsOf st (MemoryStore.get_collection_name ep p a) = [] →
          res = [])
      ∧ (limit = 0 → res = []) := by
  refine ⟨(knn (recordsOf st (MemoryStore.get_collection_name ep p a)) qemb
      limit flt).map
      (fun x => ⟨MemoryStore.memOfRecord J x.1 x.2.1, min (1 / (1 + x.2.2)) 1⟩),
    ?_, ?_, ?_, ?_⟩
  · rw [search_memories_ok ep J st p a q limit flt qemb hemb]
  · rw [List.length_map]
    exact length_knn_le ..
  · intro hempty
    rw [hempty, knn_nil]
    rfl
  · intro h0
    subst h0
    rw [knn_zero]
    rfl

/-- Witness for C8 at a concrete search of a never-used scope. -/
theorem C8_search_witness :
    epTest.embed "hello" = some [1]
    ∧ (MemoryStore.search_memories epTest JNat st0 "px" "ax"
        "hello" 5 none).1 = .ok [] := by
  obtain ⟨res, hok, -, hempty, -⟩ :=
    C8_search_shape epTest JNat st0 "px" "ax" "hello" 5 none [1] rfl
  rw [hempty rfl] at hok
  exact ⟨rfl, hok⟩

/-- Claim C10: every public operation (get, search, list, delete) creates
an empty partition for the requested scope as a side effect when none
exists; in particular `get_memory` for any id under a never-used scope
returns the not-found signal but leaves a newly created empty partition
behind. -/
theorem C10_partition_creation {Meta : Type} (ep : EmbeddingProvider)
    (J : JsonCodec Meta) (st : StoreState) (p a : String)
    (hmiss : st.findCol (MemoryStore.get_collection_name ep p a) = none) :
    (∀ mid, (MemoryStore.get_memory ep J st p a mid).1 = none
      ∧ ((MemoryStore.get_memory ep J st p a mid).2.1).findCol
          (MemoryStore.get_collection_name ep p a) =
        some ⟨⟨p, a, ep.provider_name, ep.model_name, ep.dimension⟩, []⟩)
    ∧ (∀ q limit flt,
        ((MemoryStore.search_memories ep J st p a q limit
            flt).2.1).findCol (MemoryStore.get_collection_name ep p a) =
          some ⟨⟨p, a, ep.provider_name, ep.model_name, ep.dimension⟩, []⟩)
    ∧ (∀ limit offset flt,
        ((MemoryStore.list_memories ep J st p a limit offset
            flt).2).findCol (MemoryStore.get_collection_name ep p a) =
          some ⟨⟨p, a, ep.provider_name, ep.model_name, ep.dimension⟩, []⟩)
    ∧ (∀ mid engineFail,
        ((MemoryStore.delete_memory ep st p a mid engineFail).2).findCol
          (MemoryStore.get_collection_name ep p a) =
          some ⟨⟨p, a, ep.provider_name, ep.model_name, ep.dimension⟩, []⟩) := by
  have hrec : recordsOf st (MemoryStore.get_collection_name ep p a) = [] :=
    recordsOf_eq_nil_of_findCol_none hmiss
  have hmeta := findCol_goc_meta ep st p a hmiss
  refine ⟨?_, ?_, ?_, ?_⟩
  · intro mid
    constructor
    · apply get_memory_none
      rw [hrec]
      rfl
    · rw [get_memory_state]
      exact hmeta
  · intro q limit flt
    rw [search_memories_state]
    exact hmeta
  · intro limit offset flt
    rw [list_memories_eq]
    exact hmeta
  · intro mid engineFail
    cases engineFail with
    | true =>
      simpa [MemoryStore.delete_memory] using hmeta
    | false =>
      simp only [MemoryStore.delete_memory, Bool.false_eq_true, if_false]
      rw [findCol_modifyCol_self _ hmeta]
      rfl

/-- Witness for C10 at a concrete never-used scope. -/
theorem C10_partition_witness :
    st0.findCol (MemoryStore.get_collection_name epTest "pz" "az") = none
    ∧ (MemoryStore.get_memory epTest JNat st0 "pz" "az"
        "nope").1 = none
    ∧ ((MemoryStore.get_memory epTest JNat st0 "pz" "az"
        "nope").2.1).findCol (MemoryStore.get_collection_name epTest "pz" "az") =
      some ⟨⟨"pz", "az", "local", "test-model", 1⟩, []⟩ :=
  ⟨rfl,
   ((C10_partition_creation epTest JNat st0 "pz" "az" rfl).1 "nope").1,
   ((C10_partition_creation epTest JNat st0 "pz" "az" rfl).1 "nope").2⟩

/-- The C4 claim as stated is false on the code: after a successful delete
of `m1`, a second `delete_memory` of the same id succeeds as a storage
no-op and returns `true`, not `false`. -/
theorem C4_counterexample :
    ((MemoryStore.get_memory epTest JNat stC4 "p1" "a1"
        "m1").1).isSome = true
    ∧ (MemoryStore.delete_memory epTest stC4 "p1" "a1" "m1" false).1 = true
    ∧ (MemoryStore.delete_memory epTest stC4' "p1" "a1" "m1" false).1 = true :=
  ⟨rfl, rfl, rfl⟩

/-- Claim C4 (amended): `delete_memory` always returns a boolean and never
propagates an underlying failure (a storage-engine error yields `false`,
otherwise the call returns `true`); after a successful delete, a
subsequent `get_memory` for that id returns the not-found signal, and a
subsequent `delete_memory` for the same id succeeds as a storage no-op
and returns `true`. -/
theorem C4_delete_contract {Meta : Type} (ep : EmbeddingProvider)
    (J : JsonCodec Meta) (st : StoreState) (p a mid : String) :
    (∀ engineFail,
      (MemoryStore.delete_memory ep st p a mid engineFail).1 = !engineFail)
    ∧ (MemoryStore.get_memory ep J
        ((MemoryStore.delete_memory ep st p a mid false).2) p a mid).1 = none
    ∧ (MemoryStore.delete_memory ep
        ((MemoryStore.delete_memory ep st p a mid false).2) p a mid
        false).1 = true := by
  refine ⟨fun engineFail => delete_memory_fst ep st p a mid engineFail, ?_, ?_⟩
  · apply get_memory_none
    rw [delete_memory_records ep st p a mid
      (MemoryStore.get_collection_name ep p a), if_pos rfl]
    exact findVal_filter_ne_self ..
  · simpa using delete_memory_fst ep
      ((MemoryStore.delete_memory ep st p a mid false).2) p a mid false

/-- The C1 claim as stated is false on the code: `"a/b"` and `"a_b"` are
distinct raw project ids, yet the memory stored under scope
`("a/b", "a1")` is returned by `get_memory` under scope `("a_b", "a1")`,
because both sanitize to the same collection name. -/
theorem C1_counterexample :
    ("a/b" : String) ≠ "a_b"
    ∧ (MemoryStore.get_memory epTest JNat stC1 "a_b" "a1"
        "id1").1 =
      some ⟨"id1", "a/b", "a1", "remember this", 7, "local", "test-model",
        3, 3⟩ :=
  ⟨by decide, rfl⟩

/-- Claim C1 (amended): isolation holds between scopes that resolve to
different collection names: when
`_get_collection_name(P1, A1) ≠ _get_collection_name(P2, A2)`, a memory
stored under `(P1, A1)` is never returned by `get_memory`,
`search_memories`, or `list_memories` under `(P2, A2)` (for an id not
already present in the other scope). -/
theorem C1_isolation_by_collection_name {Meta : Type} (ep : EmbeddingProvider)
    (J : JsonCodec Meta) (st : StoreState) (mc : MemoryCreate Meta)
    (P2 A2 mid : String) (now : Nat)
    (hname : MemoryStore.get_collection_name ep mc.project_id mc.agent_id ≠
      MemoryStore.get_collection_name ep P2 A2)
    (hfresh : ∀ x ∈ recordsOf st (MemoryStore.get_collection_name ep P2 A2),
      x.1 ≠ mid) :
    (MemoryStore.get_memory ep J
        (MemoryStore.store_memory ep J st mc mid now).2.1 P2 A2 mid).1 = none
    ∧ (∀ q limit flt res,
        (MemoryStore.search_memories ep J
            (MemoryStore.store_memory ep J st mc mid now).2.1 P2 A2 q limit
            flt).1 = .ok res →
          ∀ s ∈ res, s.memory.memory_id ≠ mid)
    ∧ (∀ limit offset flt,
        ∀ m ∈ (MemoryStore.list_memories ep J
            (MemoryStore.store_memory ep J st mc mid now).2.1 P2 A2 limit
            offset flt).1, m.memory_id ≠ mid) := by
  have hrec : recordsOf (MemoryStore.store_memory ep J st mc mid now).2.1
      (MemoryStore.get_collection_name ep P2 A2) =
      recordsOf st (MemoryStore.get_collection_name ep P2 A2) := by
    cases hemb : ep.embed mc.content with
    | none => exact (store_memory_fail ep J st mc mid now hemb).2 _
    | some emb =>
      rw [store_memory_records ep J st mc mid now emb hemb,
        if_neg (Ne.symm hname)]
  refine ⟨?_, ?_, ?_⟩
  · apply get_memory_none
    rw [hrec]
    exact findVal_eq_none_of_forall_ne hfresh
  · intro q limit flt res hok s hs
    cases hemb : ep.embed q with
    | none => simp [MemoryStore.search_memories, hemb] at hok
    | some qemb =>
      rw [search_memories_ok _ _ _ _ _ _ _ _ qemb hemb] at hok
      simp only [Except.ok.injEq] at hok
      subst hok
      obtain ⟨x, hx, hfx⟩ := List.mem_map.1 hs
      subst hfx
      obtain ⟨r, hrmem, -⟩ := mem_knn hx
      rw [hrec] at hrmem
      exact hfresh _ hrmem
  · intro limit offset flt m hm
    rw [list_memories_eq] at hm
    simp only at hm
    obtain ⟨x, hx, hfx⟩ := List.mem_map.1 hm
    subst hfx
    have hxrec := List.drop_subset _ _ (List.take_subset _ _ hx)
    rw [hrec] at hxrec
    exact hfresh _ hxrec

/-- Witness for the amended C1 at concrete scopes with distinct collection
names. -/
theorem C1_isolation_witness :
    MemoryStore.get_collection_name epTest "p1" "a1" ≠
      MemoryStore.get_collection_name epTest "p2" "a1"
    ∧ (MemoryStore.get_memory epTest JNat stC1w "p2" "a1"
        "idw").1 = none :=
  ⟨by decide,
   (C1_isolation_by_collection_name epTest JNat st0
     (⟨"p1", "a1", "hello", 0⟩ : MemoryCreate Nat) "p2" "a1" "idw" 0
     (by decide) (fun x hx => absurd hx (List.not_mem_nil x))).1⟩

/-- Claim C3: on an existing memory, a metadata-only update never invokes
the embedding provider, and a content update invokes it exactly once
during the call (the returned trace lists the texts passed to `embed`). -/
theorem C3_reembedding_count {Meta : Type} (ep : EmbeddingProvider)
    (J : JsonCodec Meta) (st : StoreState) (p a mid : String)
    (u : MemoryUpdate Meta) (now : Nat)
    (hex : ((MemoryStore.get_memory ep J st p a
        mid).1).isSome = true) :
    (u.content = none →
      (MemoryStore.update_memory ep J st p a mid u now).2.2 = [])
    ∧ ∀ ct, u.content = some ct →
      (MemoryStore.update_memory ep J st p a mid u now).2.2 = [ct] := by
  cases hget : (MemoryStore.get_memory ep J st p a mid).1 with
  | none => rw [hget] at hex; simp at hex
  | some ex =>
    have htr : (MemoryStore.get_memory ep J st p a mid).2.2 =
        [] := by
      rw [get_memory_eq]
    constructor
    · intro hc
      rw [update_memory_meta_eq ep J st p a mid u now ex hget hc]
      exact htr
    · intro ct hc
      cases hembed : ep.embed ct with
      | none =>
        rw [update_memory_content_fail_eq ep J st p a mid u now ex ct hget hc
          hembed, htr]
        rfl
      | some emb =>
        rw [update_memory_content_eq ep J st p a mid u now ex ct emb hget hc
          hembed]
        rw [htr]
        rfl

/-- Witness for C3 at a concrete metadata-only update of an existing
memory. -/
theorem C3_reembedding_witness :
    ((MemoryStore.get_memory epTest JNat stC4 "p1" "a1"
        "m1").1).isSome = true
    ∧ (MemoryStore.update_memory epTest JNat stC4 "p1" "a1" "m1"
        (⟨none, some 9⟩ : MemoryUpdate Nat) 5).2.2 = [] :=
  ⟨rfl,
   (C3_reembedding_count epTest JNat stC4 "p1" "a1" "m1" ⟨none, some 9⟩ 5
     rfl).1 rfl⟩

/-- Claim C7: every successful `update_memory` preserves `created_at`,
`embedding_provider` and `embedding_model` from the original record, and
stamps `updated_at` with the update instant, both in the returned
`Memory` and in the persisted record. -/
theorem C7_update_preserves_frame {Meta : Type} (ep : EmbeddingProvider)
    (J : JsonCodec Meta) (st : StoreState) (p a mid : String)
    (u : MemoryUpdate Meta) (now : Nat) (m : Memory Meta)
    (hok : (MemoryStore.update_memory ep J st p a mid u now).1 =
      .ok (some m)) :
    ∃ ex, (MemoryStore.get_memory ep J st p a mid).1 = some ex
      ∧ m.created_at = ex.created_at
      ∧ m.embedding_provider = ex.embedding_provider
      ∧ m.embedding_model = ex.embedding_model
      ∧ m.updated_at = now
      ∧ ∃ r', findVal (recordsOf
            (MemoryStore.update_memory ep J st p a mid u now).2.1
            (MemoryStore.get_collection_name ep p a)) mid = some r'
          ∧ r'.meta.created_at = ex.created_at
          ∧ r'.meta.embedding_provider = ex.embedding_provider
          ∧ r'.meta.embedding_model = ex.embedding_model
          ∧ r'.meta.updated_at = now := by
  cases hget : (MemoryStore.get_memory ep J st p a mid).1 with
  | none =>
    rw [update_memory_none_eq ep J st p a mid u now hget] at hok
    simp at hok
  | some ex =>
    obtain ⟨r0, hr0, hexr⟩ := get_memory_some hget
    refine ⟨ex, rfl, ?_⟩
    have hre : ∀ emb? doc cm,
        findVal (recordsOf
          (((MemoryStore.get_or_create_collection ep
            (MemoryStore.get_memory ep J st p a mid).2.1
            p a).2).modifyCol (MemoryStore.get_collection_name ep p a)
            (fun c => c.updateRec mid emb? doc cm))
          (MemoryStore.get_collection_name ep p a)) mid =
        some ⟨emb?.getD r0.embedding, doc, cm⟩ := by
      intro emb? doc cm
      rw [recordsOf_modifyCol _ _ _ _
        (fun rs => updateVal rs mid
          (fun r => ⟨emb?.getD r.embedding, doc, cm⟩))
        (fun c => rfl)
        (findCol_goc_ne_none ep
          (MemoryStore.get_memory ep J st p a mid).2.1 p a),
        if_pos rfl, recordsOf_goc, get_memory_state, recordsOf_goc,
        findVal_updateVal_self, hr0]
      rfl
    cases hc : u.content with
    | none =>
      rw [update_memory_meta_eq ep J st p a mid u now ex hget hc] at hok ⊢
      simp only [Except.ok.injEq, Option.some.injEq] at hok
      subst hok
      refine ⟨rfl, rfl, rfl, rfl, ?_⟩
      refine ⟨_, hre none ex.content _, rfl, rfl, rfl, rfl⟩
    | some ct =>
      cases hembed : ep.embed ct with
      | none =>
        rw [update_memory_content_fail_eq ep J st p a mid u now ex ct hget hc
          hembed] at hok
        simp at hok
      | some emb =>
        rw [update_memory_content_eq ep J st p a mid u now ex ct emb hget hc
          hembed] at hok ⊢
        simp only [Except.ok.injEq, Option.some.injEq] at hok
        subst hok
        refine ⟨rfl, rfl, rfl, rfl, ?_⟩
        refine ⟨_, hre (some emb) ct _, rfl, rfl, rfl, rfl⟩

/-- Witness for C7 at a concrete metadata-only update. -/
theorem C7_update_witness :
    (MemoryStore.update_memory epTest JNat stC4 "p1" "a1" "m1"
      ⟨none, some 9⟩ 5).1 = .ok (some mC7)
    ∧ mC7.created_at = 0 ∧ mC7.updated_at = 5 := by
  have hok : (MemoryStore.update_memory epTest JNat stC4 "p1"
      "a1" "m1" ⟨none, some 9⟩ 5).1 = .ok (some mC7) := by rfl
  obtain ⟨ex, hex, hca, -, -, hua, -⟩ :=
    C7_update_preserves_frame epTest JNat stC4 "p1" "a1" "m1" ⟨none, some 9⟩ 5
      mC7 hok
  have hexval : ex = (⟨"m1", "p1", "a1", "keep me", 0, "local", "test-model",
      0, 0⟩ : Memory Nat) := by
    have h2 : some ex = some (⟨"m1", "p1", "a1", "keep me", 0, "local",
        "test-model", 0, 0⟩ : Memory Nat) := by rw [← hex]; rfl
    exact Option.some.inj h2
  refine ⟨hok, ?_, hua⟩
  rw [hca, hexval]

/-- Claim C6: storing content `C` with metadata `M` and getting the memory
back by the returned id under the same scope yields content `C` and
metadata `M`; an omitted metadata mapping defaults to the empty mapping
at validation time. -/
theorem C6_roundtrip {Meta : Type} (ep : EmbeddingProvider) (J : JsonCodec Meta)
    (st : StoreState) (mc : MemoryCreate Meta) (mid : String) (now : Nat)
    (emb : Vec) (hemb : ep.embed mc.content = some emb)
    (hfresh : ∀ x ∈ recordsOf st
        (MemoryStore.get_collection_name ep mc.project_id mc.agent_id),
      x.1 ≠ mid) :
    (∃ m : Memory Meta,
        (MemoryStore.get_memory ep J
          (MemoryStore.store_memory ep J st mc mid now).2.1
          mc.project_id mc.agent_id mid).1 = some m
        ∧ m.content = mc.content ∧ m.metadata = mc.metadata)
    ∧ (MemoryStore.store_memory ep J st mc mid now).1 =
        .ok ⟨mid, mc.project_id, mc.agent_id, mc.content, mc.metadata,
              ep.provider_name, ep.model_name, now, now⟩
    ∧ (∀ raw : MemoryCreateRaw Meta, ∀ mc' : MemoryCreate Meta,
        raw.metadata = none →
        validateMemoryCreate J.emptyVal raw = .ok mc' →
        mc'.metadata = J.emptyVal) := by
  refine ⟨?_, store_memory_ok_fst ep J st mc mid now emb hemb, ?_⟩
  · have hrec := store_memory_records ep J st mc mid now emb hemb
      (MemoryStore.get_collection_name ep mc.project_id mc.agent_id)
    rw [if_pos rfl] at hrec
    have hfv : findVal (recordsOf
        (MemoryStore.store_memory ep J st mc mid now).2.1
        (MemoryStore.get_collection_name ep mc.project_id mc.agent_id)) mid =
        some (storedRecord ep J mc emb now) := by
      rw [hrec]
      exact findVal_append_right _ _ _ (findVal_eq_none_of_forall_ne hfresh)
    refine ⟨MemoryStore.memOfRecord J mid (storedRecord ep J mc emb now),
      ?_, rfl, ?_⟩
    · rw [get_memory_eq, hfv]
      rfl
    · show MemoryStore.deserialize_metadata J
        (MemoryStore.serialize_metadata J mc.metadata) = mc.metadata
      unfold MemoryStore.deserialize_metadata MemoryStore.serialize_metadata
      rw [if_neg (J.dumps_ne_empty mc.metadata), J.loads_dumps]
  · intro raw mc' hmeta hok
    have hm := (validateMemoryCreate_ok hok).2.2.2.2
    rw [hm, hmeta]
    rfl

/-- Witness for C6 at a concrete store/get round trip. -/
theorem C6_roundtrip_witness :
    epTest.embed "hello" = some [1]
    ∧ (MemoryStore.get_memory epTest JNat stC6 "p1" "a1"
        "w6").1 = some mC6
    ∧ mC6.content = "hello" ∧ mC6.metadata = 5 := by
  obtain ⟨⟨m, hm, -, -⟩, -, -⟩ :=
    C6_roundtrip epTest JNat st0 mcC6 "w6" 2 [1] rfl
      (fun x hx => absurd hx (List.not_mem_nil x))
  have heq : m = mC6 := by
    have h2 : some m = some mC6 := by rw [← hm]; rfl
    exact Option.some.inj h2
  rw [heq] at hm
  exact ⟨rfl, hm, rfl, rfl⟩

/-- Claim C9: a store or update request with empty / whitespace-only
content (or a store request missing a required scope field) is rejected
by validation with a descriptive failure before any storage or embedding
call (the handler returns the error with the state unchanged and an
empty embed trace); consequently the handlers preserve the invariant
that no persisted record has empty or whitespace-only content. -/
theorem C9_validation_rejects_blank {Meta : Type} (ep : EmbeddingProvider)
    (J : JsonCodec Meta) :
    (∀ (st : StoreState) (raw : MemoryCreateRaw Meta) (mid : String)
        (now : Nat),
      (raw.content = none ∨ (∃ c, raw.content = some c ∧ pyStrBlank c = true)
        ∨ raw.project_id = none ∨ raw.agent_id = none) →
      ∃ e, handle_store_memory ep J st raw mid now = (.error e, st, []))
    ∧ (∀ (st : StoreState) (p a mid : String) (uraw : MemoryUpdateRaw Meta)
        (now : Nat),
      (∃ c, uraw.content = some c ∧ pyStrBlank c = true) →
      ∃ e, handle_update_memory ep J st p a mid uraw now = (.error e, st, []))
    ∧ (∀ (st : StoreState) (raw : MemoryCreateRaw Meta) (mid : String)
        (now : Nat), NoBlank st →
        NoBlank (handle_store_memory ep J st raw mid now).2.1)
    ∧ (∀ (st : StoreState) (p a mid : String) (uraw : MemoryUpdateRaw Meta)
        (now : Nat), NoBlank st →
        NoBlank (handle_update_memory ep J st p a mid uraw now).2.1) := by
  refine ⟨?_, ?_, ?_, ?_⟩
  · intro st raw mid now h
    obtain ⟨e, he⟩ := validateMemoryCreate_isError J.emptyVal raw h
    exact ⟨e, by simp [handle_store_memory, he]⟩
  · intro st p a mid uraw now h
    obtain ⟨e, he⟩ := validateMemoryUpdate_isError uraw h
    exact ⟨e, by simp [handle_update_memory, he]⟩
  · intro st raw mid now hst
    cases hv : validateMemoryCreate J.emptyVal raw with
    | error e =>
      have hid : (handle_store_memory ep J st raw mid now).2.1 = st := by
        simp [handle_store_memory, hv]
      rw [hid]
      exact hst
    | ok mc =>
      have hblank := (validateMemoryCreate_ok hv).2.2.2.1
      have hstate : (handle_store_memory ep J st raw mid now).2.1 =
          (MemoryStore.store_memory ep J st mc mid now).2.1 := by
        simp [handle_store_memory, hv]
      rw [hstate]
      cases hemb : ep.embed mc.content with
      | none =>
        intro nm id r hr
        rw [(store_memory_fail ep J st mc mid now hemb).2 nm] at hr
        exact hst nm id r hr
      | some emb =>
        intro nm id r hr
        rw [store_memory_records ep J st mc mid now emb hemb nm] at hr
        by_cases hn :
            nm = MemoryStore.get_collection_name ep mc.project_id mc.agent_id
        · rw [if_pos hn] at hr
          rcases List.mem_append.1 hr with hr | hr
          · exact hst nm id r hr
          · simp only [List.mem_singleton, Prod.mk.injEq] at hr
            rw [hr.2]
            exact hblank
        · rw [if_neg hn] at hr
          exact hst nm id r hr
  · intro st p a mid uraw now hst
    cases hv : validateMemoryUpdate uraw with
    | error e =>
      have hid : (handle_update_memory ep J st p a mid uraw now).2.1 = st := by
        simp [handle_update_memory, hv]
      rw [hid]
      exact hst
    | ok u =>
      have hstate : (handle_update_memory ep J st p a mid uraw now).2.1 =
          (MemoryStore.update_memory ep J st p a mid u now).2.1 := by
        simp [handle_update_memory, hv]
      rw [hstate]
      cases hget : (MemoryStore.get_memory ep J st p a
          mid).1 with
      | none =>
        have hstate2 : (MemoryStore.update_memory ep J st p a mid u now).2.1 =
            (MemoryStore.get_or_create_collection ep st p a).2 := by
          simp [update_memory_none_eq ep J st p a mid u now hget,
            get_memory_state]
        rw [hstate2]
        intro nm id r hr
        rw [recordsOf_goc] at hr
        exact hst nm id r hr
      | some ex =>
        obtain ⟨r0, hr0, hexr⟩ := get_memory_some hget
        have hrecs' : ∀ (emb? : Option Vec) (doc : String) (cm : ChromaMeta)
            (nm : String),
            recordsOf (((MemoryStore.get_or_create_collection ep
                (MemoryStore.get_memory ep J st p a
                  mid).2.1 p a).2).modifyCol
                (MemoryStore.get_collection_name ep p a)
                (fun c => c.updateRec mid emb? doc cm)) nm =
              if nm = MemoryStore.get_collection_name ep p a
              then updateVal (recordsOf st nm) mid
                (fun r => ⟨emb?.getD r.embedding, doc, cm⟩)
              else recordsOf st nm := by
          intro emb? doc cm nm
          rw [recordsOf_modifyCol _ _ _ _
            (fun rs => updateVal rs mid
              (fun r => ⟨emb?.getD r.embedding, doc, cm⟩))
            (fun c => rfl)
            (findCol_goc_ne_none ep
              (MemoryStore.get_memory ep J st p a mid).2.1
              p a)]
          by_cases hn : nm = MemoryStore.get_collection_name ep p a
          · rw [if_pos hn, if_pos hn, hn, recordsOf_goc,
              get_memory_state ep J st p a mid, recordsOf_goc]
          · rw [if_neg hn, if_neg hn, recordsOf_goc,
              get_memory_state ep J st p a mid, recordsOf_goc]
        have hdoc0 : pyStrBlank ex.content = false := by
          rw [hexr]
          exact hst _ _ _ (findVal_mem hr0)
        cases hc : u.content with
        | none =>
          have hstate3 :
              (MemoryStore.update_memory ep J st p a mid u now).2.1 =
              ((MemoryStore.get_or_create_collection ep
                (MemoryStore.get_memory ep J st p a
                  mid).2.1 p a).2).modifyCol
                (MemoryStore.get_collection_name ep p a)
                (fun c => c.updateRec mid none ex.content
                  ⟨p, a, MemoryStore.serialize_metadata J
                      (u.metadata.getD ex.metadata),
                    ex.embedding_provider, ex.embedding_model,
                    ex.created_at, now⟩) := by
            rw [update_memory_meta_eq ep J st p a mid u now ex hget hc]
          refine NoBlank_update_step mid ex.content ?_
            hdoc0 hst
          intro nm
          rw [hstate3, hrecs']
          by_cases hn : nm = MemoryStore.get_collection_name ep p a
          · right
            refine ⟨fun r => ⟨r.embedding, ex.content,
              ⟨p, a, MemoryStore.serialize_metadata J
                  (u.metadata.getD ex.metadata),
                ex.embedding_provider, ex.embedding_model,
                ex.created_at, now⟩⟩, fun r => rfl, ?_⟩
            rw [if_pos hn]
            rfl
          · left
            rw [if_neg hn]
        | some ct =>
          have hctblank : pyStrBlank ct = false :=
            (validateMemoryUpdate_ok hv).2.2 ct hc
          cases hembed : ep.embed ct with
          | none =>
            have hstate3 :
                (MemoryStore.update_memory ep J st p a mid u now).2.1 =
                (MemoryStore.get_or_create_collection ep
                  (MemoryStore.get_memory ep J st p a
                    mid).2.1 p a).2 := by
              rw [update_memory_content_fail_eq ep J st p a mid u now ex ct
                hget hc hembed]
            rw [hstate3]
            intro nm id r hr
            rw [recordsOf_goc, get_memory_state ep J st p a mid,
              recordsOf_goc] at hr
            exact hst nm id r hr
          | some emb =>
            have hstate3 :
                (MemoryStore.update_memory ep J st p a mid u now).2.1 =
                ((MemoryStore.get_or_create_collection ep
                  (MemoryStore.get_memory ep J st p a
                    mid).2.1 p a).2).modifyCol
                  (MemoryStore.get_collection_name ep p a)
                  (fun c => c.updateRec mid (some emb) ct
                    ⟨p, a, MemoryStore.serialize_metadata J
                        (u.metadata.getD ex.metadata),
                      ex.embedding_provider, ex.embedding_model,
                      ex.created_at, now⟩) := by
              rw [update_memory_content_eq ep J st p a mid u now ex ct emb
                hget hc hembed]
            refine NoBlank_update_step mid ct ?_
              hctblank hst
            intro nm
            rw [hstate3, hrecs']
            by_cases hn : nm = MemoryStore.get_collection_name ep p a
            · right
              refine ⟨fun r => ⟨emb, ct,
                ⟨p, a, MemoryStore.serialize_metadata J
                    (u.metadata.getD ex.metadata),
                  ex.embedding_provider, ex.embedding_model,
                  ex.created_at, now⟩⟩, fun r => rfl, ?_⟩
              rw [if_pos hn]
              rfl
            · left
              rw [if_neg hn]

/-- Witness for C9 at a concrete whitespace-only store request against the
empty state. -/
theorem C9_validation_witness :
    pyStrBlank "   " = true
    ∧ NoBlank st0
    ∧ NoBlank (handle_store_memory epTest JNat st0 rawC9 "w9" 0).2.1 := by
  have hempty : NoBlank st0 :=
    fun nm id r hr => absurd hr (List.not_mem_nil _)
  exact ⟨by decide, hempty,
    (C9_validation_rejects_blank epTest JNat).2.2.1 st0 rawC9 "w9" 0 hempty⟩

end MemAlpha
